import Mathlib

/-!
Verification of the KWS sliding-window audio classification pipeline
(`source/use_case/kws/src/UseCaseHandler.cc` and the surrounding components
described by the specification).

The development shallowly embeds:
  * the sliding-window traversal (`audio::SlidingWindow`) driving the clip loop,
  * the feature cache (`KWSPreProcess` / `ComputeOrReuse`) invocation counting,
  * the score filter (`ScoreFilter`) producing thresholded, ranked candidates,
  * the clip handler `ClassifyAudioHandler` with its context updates, model
    readiness checks, per-window fail-fast loop and result aggregation.

Machine floats used for timestamps and scores are embedded as rationals
(exact arithmetic on the same expressions the code computes).
-/

namespace KwsSpec

/-! ## Sliding window traversal -/

/-- A window into the audio buffer: a view given by start offset and length,
as in the data model (`Window`: offset + length into an `AudioBuffer`). -/
structure Window where
  offset : Nat
  length : Nat
  deriving DecidableEq, Repr

/-- Modelled from the spec: total number of windows a `WindowSlicer` yields over
a buffer of `bufferLength` samples: `floor((bufferLength − windowSize)/stride) + 1`
when the buffer holds at least one window, and zero windows when the buffer is
shorter than `windowSize` (§4.1 edge case). `audio::SlidingWindow` itself lives
in `AudioUtils.hpp`, which is outside the provided sources. -/
def totalWindows (bufferLength windowSize stride : Nat) : Nat :=
  if bufferLength < windowSize then 0 else (bufferLength - windowSize) / stride + 1

/-- Modelled from the spec: the state of an `audio::SlidingWindow` iterator
(`AudioUtils.hpp`, outside the provided sources): the buffer length, the window
geometry, and a cursor counting the windows already yielded. -/
structure SlidingWindow where
  bufferLength : Nat
  windowSize : Nat
  stride : Nat
  cursor : Nat
  deriving DecidableEq, Repr

namespace SlidingWindow

/-- A freshly constructed slider over a buffer (cursor at the start). -/
def init (bufferLength windowSize stride : Nat) : SlidingWindow :=
  ⟨bufferLength, windowSize, stride, 0⟩

/-- Total number of windows this slider yields over the whole buffer. -/
def total (s : SlidingWindow) : Nat :=
  totalWindows s.bufferLength s.windowSize s.stride

/-- Modelled from the spec: `HasNext()` — whether another window remains. -/
def HasNext (s : SlidingWindow) : Bool :=
  s.cursor < s.total

/-- Modelled from the spec: `Next()` — yields the next window (advancing the
cursor) when `HasNext()`, and fails past the end. The `i`-th yielded window
starts `i * stride` samples into the buffer and has length `windowSize`. -/
def Next (s : SlidingWindow) : Option (Window × SlidingWindow) :=
  if s.HasNext then
    some (⟨s.cursor * s.stride, s.windowSize⟩, { s with cursor := s.cursor + 1 })
  else
    none

/-- Modelled from the spec: `TotalStrides()` — number of advances available,
i.e. windows − 1. -/
def TotalStrides (s : SlidingWindow) : Nat :=
  s.total - 1

/-- The full traversal driven by `HasNext`/`Next`: the list of windows the
slider yields from its current cursor to exhaustion. -/
def run (s : SlidingWindow) : List Window :=
  if h : s.cursor < s.total then
    ⟨s.cursor * s.stride, s.windowSize⟩ :: run { s with cursor := s.cursor + 1 }
  else
    []
termination_by s.total - s.cursor
decreasing_by
  simp only [total] at *
  omega

theorem run_eq (s : SlidingWindow) :
    s.run = (List.range (s.total - s.cursor)).map
      (fun j => Window.mk ((s.cursor + j) * s.stride) s.windowSize) := by
  generalize hk : s.total - s.cursor = k
  induction k generalizing s with
  | zero =>
      rw [run]
      simp only [List.range_zero, List.map_nil]
      have : ¬ s.cursor < s.total := by omega
      simp [this]
  | succ n ih =>
      rw [run]
      have hlt : s.cursor < s.total := by omega
      simp only [hlt, dif_pos]
      have hstep : ({ s with cursor := s.cursor + 1 } : SlidingWindow).total
          - (s.cursor + 1) = n := by
        simp only [total] at *
        omega
      rw [ih _ hstep]
      rw [List.range_succ_eq_map]
      simp only [List.map_cons, List.map_map, Nat.add_zero]
      congr 1
      apply List.map_congr_left
      intro j _
      simp only [Function.comp_apply]
      congr 2
      omega

theorem run_init_eq (bufferLength windowSize stride : Nat) :
    (init bufferLength windowSize stride).run =
      (List.range (totalWindows bufferLength windowSize stride)).map
        (fun j => Window.mk (j * stride) windowSize) := by
  rw [run_eq]
  simp [init, total]

end SlidingWindow

/-- For `windowSize ≤ bufferLength`, the window count formula. -/
theorem totalWindows_of_le {bufferLength windowSize stride : Nat}
    (h : windowSize ≤ bufferLength) :
    totalWindows bufferLength windowSize stride =
      (bufferLength - windowSize) / stride + 1 := by
  simp [totalWindows, Nat.not_lt.mpr h]

/-- For buffers shorter than the window, no windows are produced. -/
theorem totalWindows_of_short {bufferLength windowSize stride : Nat}
    (h : bufferLength < windowSize) :
    totalWindows bufferLength windowSize stride = 0 := by
  simp [totalWindows, h]

/-- C1: the sliding-window traversal yields exactly
`(bufferLength − windowSize)/stride + 1` windows, each of length `windowSize`,
the `i`-th starting at offset `i * stride`. -/
theorem sliding_window_traversal (bufferLength windowSize stride : Nat)
    (hbuf : windowSize ≤ bufferLength) (hw : 0 < windowSize)
    (hs : 0 < stride) (hsw : stride ≤ windowSize) :
    (SlidingWindow.init bufferLength windowSize stride).run.length =
        (bufferLength - windowSize) / stride + 1 ∧
      (∀ i : Nat, ∀ h : i < (SlidingWindow.init bufferLength windowSize stride).run.length,
        (SlidingWindow.init bufferLength windowSize stride).run.get ⟨i, h⟩ =
          Window.mk (i * stride) windowSize) := by
  have hws := SlidingWindow.run_init_eq bufferLength windowSize stride
  constructor
  · rw [hws]
    simp [totalWindows_of_le hbuf]
  · intro i h
    simp only [List.get_eq_getElem, hws]
    rw [hws] at h
    simp only [List.length_map, List.length_range] at h
    simp [h]

/-- Witness for C1 at a concrete instance: buffer of 10 samples, window 4,
stride 2 — five windows at offsets 0,2,4,6,8. -/
theorem sliding_window_traversal_witness :
    (4 ≤ 10 ∧ 0 < 4 ∧ 0 < 2 ∧ 2 ≤ 4) ∧
      ((SlidingWindow.init 10 4 2).run.length = (10 - 4) / 2 + 1 ∧
        (∀ i : Nat, ∀ h : i < (SlidingWindow.init 10 4 2).run.length,
          (SlidingWindow.init 10 4 2).run.get ⟨i, h⟩ = Window.mk (i * 2) 4)) :=
  ⟨by decide,
    sliding_window_traversal 10 4 2 (by decide) (by decide) (by decide) (by decide)⟩

/-! ## Feature cache (`KWSPreProcess` / MFCC reuse) -/

/-- Failure mode of the feature cache (§4.2): feeding a non-sequential window
index must fail rather than silently reuse wrong rows. -/
inductive CacheError where
  | SequenceViolation
  deriving DecidableEq, Repr

/-- Modelled from the spec: the feature cache (`KWSPreProcess` in
`KwsProcessing.cc`, outside the provided sources). `timeSteps` derives the
number of feature-matrix rows from a sample count (window size or stride) and
the frame-length/frame-stride configuration; `nextIndex` is the window index
the cache expects next under strictly increasing, gap-free traversal. -/
structure FeatureCache where
  windowSize : Nat
  stride : Nat
  timeSteps : Nat → Nat
  nextIndex : Nat

namespace FeatureCache

/-- A cache constructed for a fresh clip expects window index 0 first. -/
def init (windowSize stride : Nat) (timeSteps : Nat → Nat) : FeatureCache :=
  ⟨windowSize, stride, timeSteps, 0⟩

/-- Modelled from the spec: `ComputeOrReuse(window, windowIndex)` (§4.2).
Window 0 computes every time step of the feature matrix from scratch via the
spectral transform; each subsequent (sequential) window shifts cached rows and
computes only `timeSteps(stride)` fresh rows.  A skipped or repeated window
index fails with `SequenceViolation`.  The result records the number of
spectral-transform (MFCC) invocations the call performs. -/
def ComputeOrReuse (c : FeatureCache) (windowIndex : Nat) :
    Except CacheError (Nat × FeatureCache) :=
  if windowIndex = c.nextIndex then
    if windowIndex = 0 then
      .ok (c.timeSteps c.windowSize, { c with nextIndex := 1 })
    else
      .ok (c.timeSteps c.stride, { c with nextIndex := windowIndex + 1 })
  else
    .error .SequenceViolation

/-- Feed a sequence of window indices to the cache, accumulating the total
number of spectral-transform invocations; fail-fast on the first error. -/
def runCache : FeatureCache → List Nat → Except CacheError (Nat × FeatureCache)
  | c, [] => .ok (0, c)
  | c, i :: is =>
    match c.ComputeOrReuse i with
    | .error e => .error e
    | .ok (n, c') =>
      match runCache c' is with
      | .error e => .error e
      | .ok (m, c'') => .ok (n + m, c'')

theorem runCache_cons_ok {c : FeatureCache} {i n : Nat} {c' : FeatureCache}
    (h : c.ComputeOrReuse i = .ok (n, c')) (is : List Nat) :
    runCache c (i :: is) =
      match runCache c' is with
      | .error e => .error e
      | .ok (m, c'') => .ok (n + m, c'') := by
  rw [runCache, h]

theorem runCache_cons_error {c : FeatureCache} {i : Nat} {e : CacheError}
    (h : c.ComputeOrReuse i = .error e) (is : List Nat) :
    runCache c (i :: is) = .error e := by
  rw [runCache, h]

theorem computeOrReuse_zero (w s : Nat) (ts : Nat → Nat) :
    (init w s ts).ComputeOrReuse 0 = .ok (ts w, ⟨w, s, ts, 1⟩) := by
  simp [init, ComputeOrReuse]

theorem computeOrReuse_succ (w s : Nat) (ts : Nat → Nat) (k : Nat) (hk : 0 < k) :
    (FeatureCache.mk w s ts k).ComputeOrReuse k = .ok (ts s, ⟨w, s, ts, k + 1⟩) := by
  simp [ComputeOrReuse, Nat.pos_iff_ne_zero.mp hk]

/-- Feeding the tail `[a, a+1, ..., a+n-1]` (with `a > 0`) to a cache expecting
`a` performs `n * timeSteps(stride)` invocations. -/
theorem runCache_range_from (w s : Nat) (ts : Nat → Nat) (n a : Nat) (ha : 0 < a) :
    runCache ⟨w, s, ts, a⟩ ((List.range n).map (a + ·)) =
      .ok (n * ts s, ⟨w, s, ts, a + n⟩) := by
  induction n generalizing a with
  | zero => simp [runCache]
  | succ m ih =>
      rw [List.range_succ_eq_map]
      simp only [List.map_cons, List.map_map]
      have hfirst : (⟨w, s, ts, a⟩ : FeatureCache).ComputeOrReuse (a + 0) =
          .ok (ts s, ⟨w, s, ts, a + 1⟩) := by
        rw [show a + 0 = a from rfl, computeOrReuse_succ w s ts a ha]
      rw [runCache_cons_ok hfirst]
      have hcomp : ((a + ·) ∘ Nat.succ) = ((a + 1) + ·) := by
        funext j
        simp only [Function.comp_apply]
        omega
      rw [hcomp, ih (a + 1) (by omega)]
      have : a + 1 + m = a + (m + 1) := by omega
      rw [this]
      simp only [Except.ok.injEq, Prod.mk.injEq]
      refine ⟨by ring, by trivial⟩

/-- C2: over a strictly increasing gap-free traversal of `n ≥ 1` windows, the
cache performs `timeSteps(windowSize)` spectral-transform invocations for
window 0 and `timeSteps(stride)` for each of the `n − 1` subsequent windows;
after the first window the per-window count depends on `stride` only. -/
theorem feature_cache_reuse (w s : Nat) (ts : Nat → Nat) (n : Nat) (hn : 0 < n) :
    runCache (FeatureCache.init w s ts) (List.range n) =
      .ok (ts w + (n - 1) * ts s, ⟨w, s, ts, n⟩) := by
  obtain ⟨m, rfl⟩ : ∃ m, n = m + 1 := ⟨n - 1, by omega⟩
  rw [List.range_succ_eq_map]
  rw [runCache_cons_ok (computeOrReuse_zero w s ts)]
  have hcomp : (List.range m).map Nat.succ = (List.range m).map (1 + ·) := by
    apply List.map_congr_left
    intro j _
    omega
  rw [hcomp, runCache_range_from w s ts m 1 (by omega)]
  have h1 : m + 1 - 1 = m := by omega
  have h2 : 1 + m = m + 1 := by omega
  rw [h1, h2]

/-- Witness for C2: window 40 samples, stride 20, `timeSteps = id`, 3 windows:
40 invocations for window 0 plus 20 for each of the 2 later windows. -/
theorem feature_cache_reuse_witness :
    0 < 3 ∧
      FeatureCache.runCache (FeatureCache.init 40 20 id) (List.range 3) =
        .ok (40 + (3 - 1) * 20, ⟨40, 20, id, 3⟩) :=
  ⟨by decide, feature_cache_reuse 40 20 id 3 (by decide)⟩

/-- C3: any traversal consisting of a gap-free prefix `0, 1, …, n−1` followed by
a non-sequential index `j ≠ n` fails with `SequenceViolation` at that first
non-sequential call, whatever indices follow. -/
theorem feature_cache_sequence_violation (w s : Nat) (ts : Nat → Nat)
    (n j : Nat) (hj : j ≠ n) (rest : List Nat) :
    runCache (FeatureCache.init w s ts) (List.range n ++ j :: rest) =
      .error .SequenceViolation := by
  suffices h : ∀ a, (0 < a ∨ a = 0) → ∀ j rest, j ≠ a + n →
      runCache ⟨w, s, ts, a⟩ (((List.range n).map (a + ·)) ++ j :: rest) =
        .error .SequenceViolation by
    have := h 0 (Or.inr rfl) j rest (by omega)
    simpa [FeatureCache.init] using this
  clear hj
  induction n with
  | zero =>
      intro a _ j rest hj
      simp only [List.range_zero, List.map_nil, List.nil_append]
      have herr : (⟨w, s, ts, a⟩ : FeatureCache).ComputeOrReuse j =
          .error .SequenceViolation := by
        have : j ≠ a := by omega
        simp [ComputeOrReuse, this]
      rw [runCache_cons_error herr]
  | succ m ih =>
      intro a ha j rest hj
      rw [List.range_succ_eq_map]
      simp only [List.map_cons, List.map_map, List.cons_append]
      have hfirst : (⟨w, s, ts, a⟩ : FeatureCache).ComputeOrReuse (a + 0) =
          .ok (if a = 0 then ts w else ts s, ⟨w, s, ts, a + 1⟩) := by
        rcases ha with ha | ha
        · rw [show a + 0 = a from rfl, computeOrReuse_succ w s ts a ha]
          simp [Nat.pos_iff_ne_zero.mp ha]
        · subst ha
          simp [ComputeOrReuse, init]
      rw [runCache_cons_ok hfirst]
      have hcomp : ((a + ·) ∘ Nat.succ) = ((a + 1) + ·) := by
        funext k
        simp only [Function.comp_apply]
        omega
      rw [hcomp]
      rw [ih (a + 1) (Or.inl (by omega)) j rest (by omega)]

/-- Witness for C3: the spec scenario — feeding window indices `0, 1, 1`, the
third call fails with `SequenceViolation`. -/
theorem feature_cache_sequence_violation_witness :
    (1 : Nat) ≠ 2 ∧
      FeatureCache.runCache (FeatureCache.init 40 20 id) [0, 1, 1] =
        .error .SequenceViolation :=
  ⟨by decide, by
    have h := feature_cache_sequence_violation 40 20 id 2 1 (by decide) []
    simpa [List.range_succ] using h⟩

end FeatureCache

/-! ## Score filter -/

/-- A classification candidate: the label-table index of the label together
with its normalized score (machine float embedded as a rational). -/
structure Candidate where
  labelIdx : Nat
  score : ℚ
  deriving DecidableEq, Repr

/-- Error kind of the score filter (§4.5). -/
inductive FilterError where
  | EmptyOutputTensor
  deriving DecidableEq, Repr

/-- Modelled from the spec: pair each normalized score in label-table order
with its label index, starting from index `i` (the `Classifier` sources are
outside the provided sources). -/
def candidatesFrom (i : Nat) : List ℚ → List Candidate
  | [] => []
  | s :: ss => ⟨i, s⟩ :: candidatesFrom (i + 1) ss

/-- Modelled from the spec: stable descending insertion — a candidate is
placed after every earlier candidate whose score is at least as large, so
equal scores keep label-table order (§4.5 tie-break policy). -/
def insertDesc (c : Candidate) : List Candidate → List Candidate
  | [] => [c]
  | x :: xs => if x.score ≤ c.score then c :: x :: xs else x :: insertDesc c xs

/-- Modelled from the spec: stable sort of candidates by descending score. -/
def sortDesc : List Candidate → List Candidate
  | [] => []
  | x :: xs => insertDesc x (sortDesc xs)

/-- Modelled from the spec: `ScoreFilter.Filter(outputTensor, labels,
threshold, topK)` (§4.5): fails with `EmptyOutputTensor` on a zero-length
output; otherwise sorts the normalized scores descending (stable), keeps the
top-K, and drops every candidate scoring strictly below the threshold. -/
def Filter (scores : List ℚ) (threshold : ℚ) (topK : Nat) :
    Except FilterError (List Candidate) :=
  if scores.isEmpty then
    .error .EmptyOutputTensor
  else
    .ok (((sortDesc (candidatesFrom 0 scores)).take topK).filter
      (fun c => decide (threshold ≤ c.score)))

/-- The ranking order the filter's output respects: strictly larger score
first, and among equal scores the smaller label index first. -/
def RankedBefore (a b : Candidate) : Prop :=
  b.score < a.score ∨ (b.score = a.score ∧ a.labelIdx < b.labelIdx)

theorem mem_insertDesc {z c : Candidate} {l : List Candidate} :
    z ∈ insertDesc c l ↔ z = c ∨ z ∈ l := by
  induction l with
  | nil => simp [insertDesc]
  | cons x xs ih =>
      rw [insertDesc]
      by_cases hx : x.score ≤ c.score
      · simp [hx]
      · rw [if_neg hx]
        simp only [List.mem_cons, ih]
        tauto

theorem pairwise_insertDesc {c : Candidate} {l : List Candidate}
    (hl : l.Pairwise RankedBefore) (hc : ∀ x ∈ l, c.labelIdx < x.labelIdx) :
    (insertDesc c l).Pairwise RankedBefore := by
  induction l with
  | nil => simp [insertDesc, List.pairwise_singleton]
  | cons x xs ih =>
      rw [insertDesc]
      rcases List.pairwise_cons.mp hl with ⟨hx_all, hxs⟩
      by_cases hx : x.score ≤ c.score
      · simp only [hx, if_pos]
        refine List.pairwise_cons.mpr ⟨?_, hl⟩
        intro y hy
        rcases List.mem_cons.mp hy with rfl | hy_xs
        · rcases lt_or_eq_of_le hx with hlt | heq
          · exact Or.inl hlt
          · exact Or.inr ⟨heq, hc y (List.mem_cons_self y xs)⟩
        · have hyx := hx_all y hy_xs
          have hy_le : y.score ≤ x.score := by
            rcases hyx with h | ⟨h, _⟩
            · exact le_of_lt h
            · exact le_of_eq h
          have hy_le_c : y.score ≤ c.score := le_trans hy_le hx
          rcases lt_or_eq_of_le hy_le_c with hlt | heq
          · exact Or.inl hlt
          · exact Or.inr ⟨heq, hc y (List.mem_cons_of_mem x hy_xs)⟩
      · simp only [hx, if_neg, not_false_iff]
        refine List.pairwise_cons.mpr ⟨?_, ?_⟩
        · intro y hy
          rcases mem_insertDesc.mp hy with rfl | hy_xs
          · exact Or.inl (lt_of_not_le hx)
          · exact hx_all y hy_xs
        · exact ih hxs (fun y hy => hc y (List.mem_cons_of_mem x hy))

theorem mem_sortDesc {z : Candidate} {l : List Candidate} :
    z ∈ sortDesc l ↔ z ∈ l := by
  induction l with
  | nil => simp [sortDesc]
  | cons x xs ih =>
      rw [sortDesc, mem_insertDesc]
      simp [ih]

theorem pairwise_sortDesc {l : List Candidate}
    (hl : l.Pairwise (fun a b => a.labelIdx < b.labelIdx)) :
    (sortDesc l).Pairwise RankedBefore := by
  induction l with
  | nil => exact List.Pairwise.nil
  | cons x xs ih =>
      rw [sortDesc]
      rcases List.pairwise_cons.mp hl with ⟨hx_all, hxs⟩
      exact pairwise_insertDesc (ih hxs)
        (fun y hy => hx_all y (mem_sortDesc.mp hy))

theorem le_labelIdx_candidatesFrom (l : List ℚ) :
    ∀ j : Nat, ∀ z ∈ candidatesFrom j l, j ≤ z.labelIdx := by
  induction l with
  | nil => intro j z hz; simp [candidatesFrom] at hz
  | cons t ts iht =>
      intro j z hz
      rw [candidatesFrom] at hz
      rcases List.mem_cons.mp hz with rfl | hz'
      · exact le_refl _
      · exact le_trans (Nat.le_succ j) (iht (j + 1) z hz')

theorem pairwise_candidatesFrom (i : Nat) (l : List ℚ) :
    (candidatesFrom i l).Pairwise (fun a b => a.labelIdx < b.labelIdx) := by
  induction l generalizing i with
  | nil => exact List.Pairwise.nil
  | cons s ss ih =>
      rw [candidatesFrom]
      refine List.pairwise_cons.mpr ⟨?_, ih (i + 1)⟩
      intro y hy
      have hle := le_labelIdx_candidatesFrom ss (i + 1) y hy
      show i < y.labelIdx
      omega

/-- C5: on a non-empty score list the filter succeeds, never returns a
candidate scoring strictly below the threshold, returns candidates sorted
descending by score, and breaks score ties by original label-table index
(stable); an empty returned list is a valid (non-error) outcome. -/
theorem score_filter_spec (scores : List ℚ) (threshold : ℚ) (topK : Nat)
    (h : scores ≠ []) :
    ∃ l, Filter scores threshold topK = .ok l ∧
      (∀ c ∈ l, threshold ≤ c.score) ∧
      l.Pairwise (fun a b => b.score ≤ a.score) ∧
      l.Pairwise (fun a b => a.score = b.score → a.labelIdx < b.labelIdx) := by
  refine ⟨((sortDesc (candidatesFrom 0 scores)).take topK).filter
    (fun c => decide (threshold ≤ c.score)), ?_, ?_, ?_, ?_⟩
  · rw [Filter, if_neg (by simpa [List.isEmpty_iff] using h)]
  · intro c hc
    have := List.of_mem_filter hc
    exact of_decide_eq_true this
  · have hp : (sortDesc (candidatesFrom 0 scores)).Pairwise RankedBefore :=
      pairwise_sortDesc (pairwise_candidatesFrom 0 scores)
    have hsub : (((sortDesc (candidatesFrom 0 scores)).take topK).filter
        (fun c => decide (threshold ≤ c.score))).Sublist
          (sortDesc (candidatesFrom 0 scores)) :=
      (List.filter_sublist _).trans (List.take_sublist _ _)
    refine (hp.sublist hsub).imp ?_
    intro a b hab
    rcases hab with h | ⟨h, _⟩
    · exact le_of_lt h
    · exact le_of_eq h
  · have hp : (sortDesc (candidatesFrom 0 scores)).Pairwise RankedBefore :=
      pairwise_sortDesc (pairwise_candidatesFrom 0 scores)
    have hsub : (((sortDesc (candidatesFrom 0 scores)).take topK).filter
        (fun c => decide (threshold ≤ c.score))).Sublist
          (sortDesc (candidatesFrom 0 scores)) :=
      (List.filter_sublist _).trans (List.take_sublist _ _)
    refine (hp.sublist hsub).imp ?_
    intro a b hab heq
    rcases hab with h | ⟨_, h⟩
    · exact absurd heq (ne_of_gt h)
    · exact h

/-- Witness for C5: the spec scenario — scores `[0.95, 0.4, 0.3]` for labels
`["yes","no","up"]`, threshold `0.9`, top-3. -/
theorem score_filter_spec_witness :
    ([(0.95 : ℚ), 0.4, 0.3] ≠ []) ∧
      ∃ l, Filter [(0.95 : ℚ), 0.4, 0.3] 0.9 3 = .ok l ∧
        (∀ c ∈ l, (0.9 : ℚ) ≤ c.score) ∧
        l.Pairwise (fun a b => b.score ≤ a.score) ∧
        l.Pairwise (fun a b => a.score = b.score → a.labelIdx < b.labelIdx) :=
  ⟨by decide, score_filter_spec [(0.95 : ℚ), 0.4, 0.3] 0.9 3 (by decide)⟩

/-! ## Clip handler (`ClassifyAudioHandler`, UseCaseHandler.cc) -/

/-- One per-window result (`kws::KwsResult`): the window's classification
candidates, a timestamp in seconds from clip start, the inference index, and
the threshold in use (UseCaseHandler.cc lines 146-149). -/
structure KwsResult where
  resultVec : List Candidate
  timeStamp : ℚ
  inferenceNumber : Nat
  threshold : ℚ
  deriving DecidableEq, Repr

/-- The model capability as the handler sees it: whether `IsInited()` holds
and the input tensor's dimension list (`none` models a null `dims` pointer,
UseCaseHandler.cc lines 68-80). -/
structure Model where
  inited : Bool
  dims : Option (List Nat)
  deriving DecidableEq, Repr

/-- Modelled from the spec: a freshly constructed model reports
not-initialised (InferenceTestAD.cc lines 86-88; the `Model` class itself is
outside the provided sources). -/
def Model.fresh : Model :=
  ⟨false, none⟩

/-- Modelled from the spec: a successful `Init()` makes the model report
initialised (InferenceTestAD.cc lines 87-88). -/
def Model.initSuccess (m : Model) : Model :=
  { m with inited := true }

/-- The configuration and collaborators `ClassifyAudioHandler` reads: the
sampling frequency (`audio::MicroNetKwsMFCC::ms_defaultSamplingFreq`), the
window geometry exposed by `KWSPreProcess` (`m_audioDataWindowSize`,
`m_audioDataStride`), the score threshold, the minimum input tensor rank, the
stored clips' sample counts (`get_audio_array_size`, indexed up to
`NUMBER_OF_FILES = clips.length`), and an oracle `infer` giving, per clip and
window index, the outcome of the PreProcess/RunInference/PostProcess triple
(`none` = that stage reported failure, `some r` = the window's classification
results). -/
structure HandlerConfig where
  samplingFreq : ℚ
  windowSize : Nat
  stride : Nat
  scoreThreshold : ℚ
  minTensorDims : Nat
  clips : List Nat
  infer : Nat → Nat → Option (List Candidate)

/-- The slice of `ApplicationContext` the handler reads and writes: the
stored clip selection (`"clipIndex"`) and the published result sequence
(`"results"`; `none` while never set). -/
structure AppCtx where
  clipIndex : Nat
  results : Option (List KwsResult)
  deriving DecidableEq, Repr

/-- The distinct failure exits of `ClassifyAudioHandler` (each `return false`
site, identified by its error message). -/
inductive HandlerError where
  | ModelNotInitialized
  | InvalidInputTensorDims
  | InputTensorDimsTooSmall
  | WindowProcessingFailure
  deriving DecidableEq, Repr

/-- Clip selection update (UseCaseHandler.cc lines 53-59): a request with a
valid index updates the stored `"clipIndex"`; an out-of-range request leaves
the stored selection untouched. -/
def selectClip (cfg : HandlerConfig) (ctx : AppCtx) (clipIndex : Nat) : AppCtx :=
  if clipIndex < cfg.clips.length then { ctx with clipIndex := clipIndex } else ctx

/-- The model checks preceding the clip loop (UseCaseHandler.cc lines 68-80):
`IsInited()`, non-null input tensor dims, and minimum tensor rank. -/
def checkModel (cfg : HandlerConfig) (m : Model) : Option HandlerError :=
  if !m.inited then
    some .ModelNotInitialized
  else
    match m.dims with
    | none => some .InvalidInputTensorDims
    | some d =>
      if d.length < cfg.minTensorDims then some .InputTensorDimsTooSmall else none

/-- The KwsResult the loop body builds for window `i` of clip `clipIdx`
(UseCaseHandler.cc lines 146-149): timestamp
`Index() * secondsPerSample * m_audioDataStride` with
`secondsPerSample = 1 / samplingFreq`. -/
def resultAt (cfg : HandlerConfig) (clipIdx i : Nat) : KwsResult :=
  ⟨(cfg.infer clipIdx i).getD [],
    (i : ℚ) * (1 / cfg.samplingFreq) * (cfg.stride : ℚ), i, cfg.scoreThreshold⟩

/-- The `while (audioDataSlider.HasNext())` loop (UseCaseHandler.cc lines
122-155): each window runs pre-processing, inference and post-processing
(the `infer` oracle); any failure aborts the whole clip (`return false`,
embedded as `none`); success appends one `KwsResult`. -/
def clipLoop (cfg : HandlerConfig) (clipIdx : Nat) (s : SlidingWindow)
    (acc : List KwsResult) : Option (List KwsResult) :=
  if h : s.HasNext then
    match cfg.infer clipIdx s.cursor with
    | none => none
    | some _ =>
        clipLoop cfg clipIdx { s with cursor := s.cursor + 1 }
          (acc ++ [resultAt cfg clipIdx s.cursor])
  else
    some acc
termination_by s.total - s.cursor
decreasing_by
  simp only [SlidingWindow.HasNext, SlidingWindow.total, decide_eq_true_eq] at h
  simp only [SlidingWindow.total]
  omega

/-- Processing of one whole clip: a fresh slider over the clip's audio buffer
drives the window loop, starting from an empty result container
(UseCaseHandler.cc lines 106-112). -/
def processClip (cfg : HandlerConfig) (clipIdx : Nat) : Option (List KwsResult) :=
  clipLoop cfg clipIdx
    (SlidingWindow.init (cfg.clips.getD clipIdx 0) cfg.windowSize cfg.stride) []

/-- Number of windows the slider yields over clip `clipIdx`. -/
def clipWindows (cfg : HandlerConfig) (clipIdx : Nat) : Nat :=
  totalWindows (cfg.clips.getD clipIdx 0) cfg.windowSize cfg.stride

/-- The `do … while (runAll && clipIndex != initialClipIdx)` loop
(UseCaseHandler.cc lines 100-172): process the currently selected clip;
on success publish the complete result sequence into the context
(`ctx.Set("results", finalResults)`) and advance the clip selection
(`IncrementAppCtxIfmIdx`, modelled from the spec as a wrap-around advance
over the stored clips since `UseCaseCommonUtils.cc` is outside the provided
sources); on failure return immediately.  `fuel` bounds the number of
iterations; the handler passes enough fuel for a full wrap-around. -/
def handlerLoop (cfg : HandlerConfig) (initialClipIdx : Nat) (runAll : Bool) :
    Nat → AppCtx → Except HandlerError Unit × AppCtx
  | fuel, ctx =>
    match processClip cfg ctx.clipIndex with
    | none => (.error .WindowProcessingFailure, ctx)
    | some finalResults =>
        let ctx' : AppCtx :=
          { clipIndex := (ctx.clipIndex + 1) % cfg.clips.length,
            results := some finalResults }
        if runAll && ctx'.clipIndex != initialClipIdx then
          match fuel with
          | 0 => (.ok (), ctx')
          | fuel' + 1 => handlerLoop cfg initialClipIdx runAll fuel' ctx'
        else
          (.ok (), ctx')

/-- `ClassifyAudioHandler(ctx, clipIndex, runAll)` (UseCaseHandler.cc lines
46-175): clip selection update, model readiness checks, then the clip loop.
Returns the C++ `bool` as `Except` (`.ok ()` = `true`, `.error e` = the
`return false` site reached) together with the final context. -/
def ClassifyAudioHandler (cfg : HandlerConfig) (m : Model) (ctx : AppCtx)
    (clipIndex : Nat) (runAll : Bool) : Except HandlerError Unit × AppCtx :=
  let ctx₁ := selectClip cfg ctx clipIndex
  let initialClipIdx := ctx₁.clipIndex
  match checkModel cfg m with
  | some e => (.error e, ctx₁)
  | none => handlerLoop cfg initialClipIdx runAll cfg.clips.length ctx₁

/-! ### Clip-loop characterization -/

theorem clipLoop_hasNext_none {cfg : HandlerConfig} {clipIdx : Nat}
    {s : SlidingWindow} {acc : List KwsResult} (hlt : s.cursor < s.total)
    (hf : cfg.infer clipIdx s.cursor = none) :
    clipLoop cfg clipIdx s acc = none := by
  have h : s.HasNext = true := by
    simp only [SlidingWindow.HasNext, decide_eq_true_eq]
    exact hlt
  rw [clipLoop, dif_pos h, hf]

theorem clipLoop_hasNext_some {cfg : HandlerConfig} {clipIdx : Nat}
    {s : SlidingWindow} {acc : List KwsResult} {r : List Candidate}
    (hlt : s.cursor < s.total) (hf : cfg.infer clipIdx s.cursor = some r) :
    clipLoop cfg clipIdx s acc =
      clipLoop cfg clipIdx { s with cursor := s.cursor + 1 }
        (acc ++ [resultAt cfg clipIdx s.cursor]) := by
  have h : s.HasNext = true := by
    simp only [SlidingWindow.HasNext, decide_eq_true_eq]
    exact hlt
  rw [clipLoop, dif_pos h, hf]

theorem clipLoop_exhausted {cfg : HandlerConfig} {clipIdx : Nat}
    {s : SlidingWindow} {acc : List KwsResult} (hge : ¬ s.cursor < s.total) :
    clipLoop cfg clipIdx s acc = some acc := by
  have h : ¬ s.HasNext = true := by
    simp only [SlidingWindow.HasNext, decide_eq_true_eq]
    exact hge
  rw [clipLoop, dif_neg h]

/-- When every remaining window's processing succeeds, the loop yields one
`KwsResult` per remaining window, in traversal order. -/
theorem clipLoop_some (cfg : HandlerConfig) (clipIdx : Nat) (k : Nat) :
    ∀ (s : SlidingWindow) (acc : List KwsResult), s.total - s.cursor = k →
      (∀ i, s.cursor ≤ i → i < s.total → (cfg.infer clipIdx i).isSome) →
      clipLoop cfg clipIdx s acc =
        some (acc ++ (List.range k).map (fun j => resultAt cfg clipIdx (s.cursor + j))) := by
  induction k with
  | zero =>
      intro s acc hk _
      rw [clipLoop_exhausted (by omega)]
      simp
  | succ m ih =>
      intro s acc hk hall
      have hlt : s.cursor < s.total := by omega
      cases hsome : cfg.infer clipIdx s.cursor with
      | none =>
          have := hall s.cursor (le_refl _) hlt
          rw [hsome] at this
          simp at this
      | some r =>
          rw [clipLoop_hasNext_some hlt hsome]
          rw [ih { s with cursor := s.cursor + 1 }
            (acc ++ [resultAt cfg clipIdx s.cursor])
            (by
              show s.total - (s.cursor + 1) = m
              omega)
            (by
              intro i hci hit
              have hci' : s.cursor + 1 ≤ i := hci
              have hit' : i < s.total := hit
              exact hall i (by omega) hit')]
          rw [List.range_succ_eq_map]
          simp only [List.map_cons, Nat.add_zero, List.map_map,
            List.append_assoc, List.singleton_append]
          congr 2
          congr 1
          apply List.map_congr_left
          intro j _
          simp only [Function.comp_apply]
          congr 1
          omega

/-- When some remaining window's processing fails, the loop fails (fail-fast)
and yields no result list at all. -/
theorem clipLoop_none (cfg : HandlerConfig) (clipIdx : Nat) (i : Nat)
    (hfail : cfg.infer clipIdx i = none) (k : Nat) :
    ∀ (s : SlidingWindow) (acc : List KwsResult), s.total - s.cursor = k →
      s.cursor ≤ i → i < s.total → clipLoop cfg clipIdx s acc = none := by
  induction k with
  | zero =>
      intro s acc hk hci hit
      omega
  | succ m ih =>
      intro s acc hk hci hit
      have hlt : s.cursor < s.total := by omega
      rcases Nat.eq_or_lt_of_le hci with heq | hgt
      · exact clipLoop_hasNext_none hlt (heq ▸ hfail)
      · cases hsome : cfg.infer clipIdx s.cursor with
        | none => exact clipLoop_hasNext_none hlt hsome
        | some r =>
            rw [clipLoop_hasNext_some hlt hsome]
            exact ih { s with cursor := s.cursor + 1 } _
              (by
                show s.total - (s.cursor + 1) = m
                omega)
              (by
                show s.cursor + 1 ≤ i
                omega)
              hit

theorem processClip_some (cfg : HandlerConfig) (clipIdx : Nat)
    (h : ∀ i, i < clipWindows cfg clipIdx → (cfg.infer clipIdx i).isSome) :
    processClip cfg clipIdx =
      some ((List.range (clipWindows cfg clipIdx)).map (resultAt cfg clipIdx)) := by
  rw [processClip]
  rw [clipLoop_some cfg clipIdx (clipWindows cfg clipIdx)
    (SlidingWindow.init (cfg.clips.getD clipIdx 0) cfg.windowSize cfg.stride) []
    rfl
    (by
      intro i _ hit
      exact h i hit)]
  simp [SlidingWindow.init]

theorem processClip_none (cfg : HandlerConfig) (clipIdx : Nat) (i : Nat)
    (hlt : i < clipWindows cfg clipIdx) (hfail : cfg.infer clipIdx i = none) :
    processClip cfg clipIdx = none := by
  rw [processClip]
  exact clipLoop_none cfg clipIdx i hfail (clipWindows cfg clipIdx)
    (SlidingWindow.init (cfg.clips.getD clipIdx 0) cfg.windowSize cfg.stride) []
    rfl (Nat.zero_le i) hlt

theorem processClip_eq_some_iff {cfg : HandlerConfig} {clipIdx : Nat}
    {l : List KwsResult} :
    processClip cfg clipIdx = some l ↔
      (∀ i, i < clipWindows cfg clipIdx → (cfg.infer clipIdx i).isSome) ∧
      l = (List.range (clipWindows cfg clipIdx)).map (resultAt cfg clipIdx) := by
  by_cases h : ∀ i, i < clipWindows cfg clipIdx → (cfg.infer clipIdx i).isSome
  · rw [processClip_some cfg clipIdx h]
    simp only [Option.some.injEq]
    constructor
    · intro he
      exact ⟨h, he.symm⟩
    · rintro ⟨-, he⟩
      exact he.symm
  · push_neg at h
    obtain ⟨i, hi, hnone⟩ := h
    rw [processClip_none cfg clipIdx i hi (Option.not_isSome_iff_eq_none.mp hnone)]
    constructor
    · intro hc
      cases hc
    · rintro ⟨hall, -⟩
      exact absurd (hall i hi) hnone

/-- With `runAll = false` the do-while body executes exactly once. -/
theorem handlerLoop_false (cfg : HandlerConfig) (initial fuel : Nat) (ctx : AppCtx) :
    handlerLoop cfg initial false fuel ctx =
      match processClip cfg ctx.clipIndex with
      | none => (.error .WindowProcessingFailure, ctx)
      | some finalResults =>
          (.ok (), ⟨(ctx.clipIndex + 1) % cfg.clips.length, some finalResults⟩) := by
  rw [handlerLoop]
  cases processClip cfg ctx.clipIndex with
  | none => rfl
  | some l => simp

/-- With the model checks passing, the handler is the do-while loop started
from the updated context. -/
theorem handler_ready (cfg : HandlerConfig) (m : Model) (ctx : AppCtx)
    (clipIndex : Nat) (runAll : Bool) (hm : checkModel cfg m = none) :
    ClassifyAudioHandler cfg m ctx clipIndex runAll =
      handlerLoop cfg (selectClip cfg ctx clipIndex).clipIndex runAll
        cfg.clips.length (selectClip cfg ctx clipIndex) := by
  rw [ClassifyAudioHandler, hm]

theorem selectClip_results (cfg : HandlerConfig) (ctx : AppCtx) (clipIndex : Nat) :
    (selectClip cfg ctx clipIndex).results = ctx.results := by
  rw [selectClip]
  split <;> rfl

/-! ### Concrete instances used as witnesses -/

/-- A ready model: initialised, with a valid two-dimensional input tensor. -/
def modelReady : Model :=
  ⟨true, some [49, 10]⟩

/-- A configuration whose window processing always fails. -/
def cfgAllFail : HandlerConfig :=
  ⟨16000, 4, 2, 0, 2, [10], fun _ _ => none⟩

/-- A configuration whose window processing always succeeds (one 10-sample
clip, window 4, stride 2, hence 4 windows). -/
def cfgAllOk : HandlerConfig :=
  ⟨16000, 4, 2, 0, 2, [10], fun _ _ => some []⟩

/-- The spec's 16 kHz scenario: 16000-sample windows, 16000-sample stride,
one 48000-sample clip. -/
def cfg16k : HandlerConfig :=
  ⟨16000, 16000, 16000, 0, 2, [48000], fun _ _ => some []⟩

/-- A configuration whose single clip is shorter than the window. -/
def cfgShort : HandlerConfig :=
  ⟨16000, 200, 100, 0, 2, [100], fun _ _ => some []⟩

/-! ### Claim theorems about the handler -/

/-- C4: when any window of the selected clip fails, the handler aborts with a
failure and the published results are left untouched (the partial sequence is
discarded, never exposed); whenever the handler succeeds, the published result
sequence is complete — one `KwsResult` per window, the `i`-th carrying
inference index `i`. -/
theorem handler_fail_fast_discard (cfg : HandlerConfig) (m : Model) (ctx : AppCtx)
    (clipIndex : Nat) (hm : checkModel cfg m = none) :
    ((∃ i, i < clipWindows cfg (selectClip cfg ctx clipIndex).clipIndex ∧
        cfg.infer (selectClip cfg ctx clipIndex).clipIndex i = none) →
      ClassifyAudioHandler cfg m ctx clipIndex false =
        (.error .WindowProcessingFailure, selectClip cfg ctx clipIndex) ∧
      (selectClip cfg ctx clipIndex).results = ctx.results) ∧
    (∀ u ctx', ClassifyAudioHandler cfg m ctx clipIndex false = (.ok u, ctx') →
      ∃ l, ctx'.results = some l ∧
        l.length = clipWindows cfg (selectClip cfg ctx clipIndex).clipIndex ∧
        ∀ i : Nat, ∀ h : i < l.length, (l.get ⟨i, h⟩).inferenceNumber = i) := by
  constructor
  · rintro ⟨i, hi, hfail⟩
    refine ⟨?_, selectClip_results cfg ctx clipIndex⟩
    rw [handler_ready cfg m ctx clipIndex false hm, handlerLoop_false,
      processClip_none cfg _ i hi hfail]
  · intro u ctx' heq
    rw [handler_ready cfg m ctx clipIndex false hm, handlerLoop_false] at heq
    cases hp : processClip cfg (selectClip cfg ctx clipIndex).clipIndex with
    | none =>
        rw [hp] at heq
        exact absurd (congrArg Prod.fst heq) (fun hcc => by cases hcc)
    | some l =>
        rw [hp] at heq
        simp only [Prod.mk.injEq] at heq
        obtain ⟨-, hctx⟩ := heq
        obtain ⟨-, rfl⟩ := processClip_eq_some_iff.mp hp
        refine ⟨(List.range (clipWindows cfg (selectClip cfg ctx clipIndex).clipIndex)).map
          (resultAt cfg (selectClip cfg ctx clipIndex).clipIndex), ?_, by simp, ?_⟩
        · rw [← hctx]
        · intro i h
          have hi : i < clipWindows cfg (selectClip cfg ctx clipIndex).clipIndex := by
            simpa using h
          simp [List.get_eq_getElem, resultAt]

/-- Witness for C4: with an always-failing oracle over a 4-window clip and a
ready model, the handler fails and leaves the published results untouched. -/
theorem handler_fail_fast_discard_witness :
    checkModel cfgAllFail modelReady = none ∧
      ClassifyAudioHandler cfgAllFail modelReady ⟨0, none⟩ 0 false =
        (.error .WindowProcessingFailure, selectClip cfgAllFail ⟨0, none⟩ 0) ∧
      (selectClip cfgAllFail ⟨0, none⟩ 0).results = (⟨0, none⟩ : AppCtx).results := by
  have hm : checkModel cfgAllFail modelReady = none := rfl
  exact ⟨hm, (handler_fail_fast_discard cfgAllFail modelReady ⟨0, none⟩ 0 hm).1
    ⟨0, by decide, rfl⟩⟩

/-- C6: the `KwsResult` created for window `i` carries timestamp
`i * stride / samplingFreq` seconds and inference index `i`. -/
theorem kws_result_timestamp (cfg : HandlerConfig) (clipIdx : Nat)
    (l : List KwsResult) (hp : processClip cfg clipIdx = some l)
    (i : Nat) (h : i < l.length) :
    (l.get ⟨i, h⟩).timeStamp = (i : ℚ) * (cfg.stride : ℚ) / cfg.samplingFreq ∧
    (l.get ⟨i, h⟩).inferenceNumber = i := by
  obtain ⟨-, rfl⟩ := processClip_eq_some_iff.mp hp
  have hi : i < clipWindows cfg clipIdx := by simpa using h
  constructor
  · simp only [List.get_eq_getElem, List.getElem_map, List.getElem_range, resultAt]
    ring
  · simp [List.get_eq_getElem, resultAt]

/-- Witness for C6: the spec's 16 kHz scenario — window 16000, stride 16000,
48000-sample clip: exactly 3 windows with timestamps 0, 1 and 2 seconds and
inference indices 0, 1, 2. -/
theorem kws_result_timestamp_witness :
    ∃ l, processClip cfg16k 0 = some l ∧ l.length = 3 ∧
      ∃ h0 : 0 < l.length, ∃ h1 : 1 < l.length, ∃ h2 : 2 < l.length,
        (l.get ⟨0, h0⟩).timeStamp = 0 ∧ (l.get ⟨1, h1⟩).timeStamp = 1 ∧
        (l.get ⟨2, h2⟩).timeStamp = 2 ∧
        (l.get ⟨0, h0⟩).inferenceNumber = 0 ∧
        (l.get ⟨1, h1⟩).inferenceNumber = 1 ∧
        (l.get ⟨2, h2⟩).inferenceNumber = 2 := by
  have hp := processClip_some cfg16k 0 (fun _ _ => rfl)
  have hN : clipWindows cfg16k 0 = 3 := rfl
  rw [hN] at hp
  refine ⟨_, hp, by simp, by simp, by simp, by simp, ?_, ?_, ?_, ?_, ?_, ?_⟩
  · have e := (kws_result_timestamp cfg16k 0 _ hp 0 (by simp)).1
    rw [e]
    norm_num
  · have e := (kws_result_timestamp cfg16k 0 _ hp 1 (by simp)).1
    rw [e]
    norm_num [cfg16k]
  · have e := (kws_result_timestamp cfg16k 0 _ hp 2 (by simp)).1
    rw [e]
    norm_num [cfg16k]
  · exact (kws_result_timestamp cfg16k 0 _ hp 0 (by simp)).2
  · exact (kws_result_timestamp cfg16k 0 _ hp 1 (by simp)).2
  · exact (kws_result_timestamp cfg16k 0 _ hp 2 (by simp)).2

/-- C7: a successfully processed clip's result sequence is complete and in
traversal order: one result per window, the result at position `i` carries
inference index `i`, and inference indices are strictly increasing (no
reordering, dropping or duplication). -/
theorem results_ordered (cfg : HandlerConfig) (clipIdx : Nat) (l : List KwsResult)
    (hp : processClip cfg clipIdx = some l) :
    l.length = clipWindows cfg clipIdx ∧
    (∀ i : Nat, ∀ h : i < l.length, (l.get ⟨i, h⟩).inferenceNumber = i) ∧
    l.Pairwise (fun a b => a.inferenceNumber < b.inferenceNumber) := by
  obtain ⟨-, rfl⟩ := processClip_eq_some_iff.mp hp
  refine ⟨by simp, ?_, ?_⟩
  · intro i h
    have hi : i < clipWindows cfg clipIdx := by simpa using h
    simp [List.get_eq_getElem, resultAt]
  · rw [List.pairwise_map]
    refine (List.pairwise_lt_range _).imp ?_
    intro a b hab
    simpa [resultAt] using hab

/-- Witness for C7: the always-succeeding 4-window configuration. -/
theorem results_ordered_witness :
    ∃ l, processClip cfgAllOk 0 = some l ∧
      (l.length = clipWindows cfgAllOk 0 ∧
        (∀ i : Nat, ∀ h : i < l.length, (l.get ⟨i, h⟩).inferenceNumber = i) ∧
        l.Pairwise (fun a b => a.inferenceNumber < b.inferenceNumber)) := by
  have hp := processClip_some cfgAllOk 0 (fun _ _ => rfl)
  exact ⟨_, hp, results_ordered cfgAllOk 0 _ hp⟩

/-- C8: a clip shorter than the window yields zero windows, and the handler
completes successfully, publishing an empty result sequence — no error. -/
theorem short_buffer_empty_results (cfg : HandlerConfig) (m : Model) (ctx : AppCtx)
    (clipIndex : Nat) (hm : checkModel cfg m = none)
    (hshort : cfg.clips.getD (selectClip cfg ctx clipIndex).clipIndex 0 <
      cfg.windowSize) :
    clipWindows cfg (selectClip cfg ctx clipIndex).clipIndex = 0 ∧
    ClassifyAudioHandler cfg m ctx clipIndex false =
      (.ok (), ⟨((selectClip cfg ctx clipIndex).clipIndex + 1) % cfg.clips.length,
        some []⟩) := by
  have hN : clipWindows cfg (selectClip cfg ctx clipIndex).clipIndex = 0 :=
    totalWindows_of_short hshort
  refine ⟨hN, ?_⟩
  have hp := processClip_some cfg (selectClip cfg ctx clipIndex).clipIndex
    (fun i hi => absurd (hN ▸ hi) (Nat.not_lt_zero i))
  rw [hN] at hp
  simp only [List.range_zero, List.map_nil] at hp
  rw [handler_ready cfg m ctx clipIndex false hm, handlerLoop_false, hp]

/-- Witness for C8: a 100-sample clip under a 200-sample window. -/
theorem short_buffer_empty_results_witness :
    (checkModel cfgShort modelReady = none ∧
      cfgShort.clips.getD (selectClip cfgShort ⟨0, none⟩ 0).clipIndex 0 <
        cfgShort.windowSize) ∧
      (clipWindows cfgShort (selectClip cfgShort ⟨0, none⟩ 0).clipIndex = 0 ∧
        ClassifyAudioHandler cfgShort modelReady ⟨0, none⟩ 0 false =
          (.ok (), ⟨((selectClip cfgShort ⟨0, none⟩ 0).clipIndex + 1) %
            cfgShort.clips.length, some []⟩)) :=
  ⟨⟨rfl, by decide⟩,
    short_buffer_empty_results cfgShort modelReady ⟨0, none⟩ 0 rfl (by decide)⟩

/-- C9: invoked while the model has not reported ready, the handler fails
with `ModelNotInitialized` before any window is processed — the outcome is the
same for every inference oracle (so no inference runs) and the published
results are untouched; a freshly constructed model reports not-initialised
until `Init()` succeeds. -/
theorem model_not_initialized (cfg : HandlerConfig) (m : Model) (ctx : AppCtx)
    (clipIndex : Nat) (runAll : Bool) (hm : m.inited = false) :
    (∀ f, ClassifyAudioHandler { cfg with infer := f } m ctx clipIndex runAll =
      (.error .ModelNotInitialized, selectClip cfg ctx clipIndex)) ∧
    (selectClip cfg ctx clipIndex).results = ctx.results ∧
    Model.fresh.inited = false ∧
    (Model.initSuccess Model.fresh).inited = true := by
  refine ⟨?_, selectClip_results cfg ctx clipIndex, rfl, rfl⟩
  intro f
  have hc : checkModel { cfg with infer := f } m = some .ModelNotInitialized := by
    simp [checkModel, hm]
  rw [ClassifyAudioHandler, hc]
  rfl

/-- Witness for C9: a fresh model over the always-succeeding configuration. -/
theorem model_not_initialized_witness :
    Model.fresh.inited = false ∧
      (∀ f, ClassifyAudioHandler { cfgAllOk with infer := f } Model.fresh
        ⟨0, none⟩ 0 true = (.error .ModelNotInitialized,
          selectClip cfgAllOk ⟨0, none⟩ 0)) :=
  ⟨rfl, (model_not_initialized cfgAllOk Model.fresh ⟨0, none⟩ 0 true rfl).1⟩

/-- C10: a request with `clipIndex ≥ NUMBER_OF_FILES` does not fail because
of the out-of-range index: the stored clip selection is left untouched, the
handler behaves exactly as if called with the stored index, and it returns
success when processing of the stored clip succeeds. -/
theorem out_of_range_clip_index (cfg : HandlerConfig) (m : Model) (ctx : AppCtx)
    (clipIndex : Nat) (runAll : Bool) (hge : cfg.clips.length ≤ clipIndex) :
    selectClip cfg ctx clipIndex = ctx ∧
    ClassifyAudioHandler cfg m ctx clipIndex runAll =
      ClassifyAudioHandler cfg m ctx ctx.clipIndex runAll ∧
    (∀ l, checkModel cfg m = none →
      processClip cfg ctx.clipIndex = some l →
      ClassifyAudioHandler cfg m ctx clipIndex false =
        (.ok (), ⟨(ctx.clipIndex + 1) % cfg.clips.length, some l⟩)) := by
  have hsel : selectClip cfg ctx clipIndex = ctx := by
    rw [selectClip, if_neg (by omega)]
  refine ⟨hsel, ?_, ?_⟩
  · have hsel₂ : selectClip cfg ctx ctx.clipIndex = ctx := by
      rw [selectClip]
      split <;> rfl
    rw [ClassifyAudioHandler, ClassifyAudioHandler, hsel, hsel₂]
  · intro l hm hp
    rw [handler_ready cfg m ctx clipIndex false hm, hsel, handlerLoop_false, hp]

/-- Witness for C10: requesting clip 5 when only one clip is stored — the
handler processes the stored clip 0 (zero windows) and succeeds. -/
theorem out_of_range_clip_index_witness :
    cfgShort.clips.length ≤ 5 ∧
      selectClip cfgShort ⟨0, none⟩ 5 = ⟨0, none⟩ ∧
      ClassifyAudioHandler cfgShort modelReady ⟨0, none⟩ 5 false =
        (.ok (), ⟨(0 + 1) % cfgShort.clips.length, some []⟩) := by
  have h := out_of_range_clip_index cfgShort modelReady ⟨0, none⟩ 5 false (by decide)
  have hp : processClip cfgShort (0 : Nat) =
      some ((List.range (clipWindows cfgShort 0)).map (resultAt cfgShort 0)) :=
    processClip_some cfgShort 0 (fun _ _ => rfl)
  rw [show clipWindows cfgShort 0 = 0 from rfl] at hp
  simp only [List.range_zero, List.map_nil] at hp
  exact ⟨by decide, h.1, h.2.2 [] rfl hp⟩

end KwsSpec
